import Mathlib

/-!
# OGR XLSX driver — shallow embedding

A shallow embedding of the tabular XLSX reader/writer driver exercised by
`autotest/ogr/ogr_xlsx.py`.  The driver core itself is not part of the
source excerpt (only its test suite is), so every definition below is
modelled from the specification of the driver (data model, worksheet
parser, type-inference engine, feature materializer, writer), adjusted
only where the tests pin the behaviour down more precisely than the
spec's prose.
-/

namespace XLSX

/-- OGR logical field types used by the driver's field schema. -/
inductive FieldType
  | OFTInteger
  | OFTInteger64
  | OFTReal
  | OFTDate
  | OFTTime
  | OFTDateTime
  | OFTString
  deriving DecidableEq

/-- OGR field subtypes recognized by the driver. -/
inductive FieldSubType
  | OFSTNone
  | OFSTBoolean
  deriving DecidableEq

/-- A field of a layer schema: name, logical type, subtype. -/
structure FieldDefn where
  name : String
  fieldType : FieldType
  subType : FieldSubType
  deriving DecidableEq

/-- A calendar date/time value with millisecond component. -/
structure DateTimeValue where
  year : Nat
  month : Nat
  day : Nat
  hour : Nat
  minute : Nat
  second : Nat
  millisecond : Nat
  deriving DecidableEq

/-- A typed OGR feature value.  Integer and Integer64 fields both carry
mathematical integers (`vInt`); which OGR type they belong to is a
property of the field, not of the value.  Real values are modelled as
exact rationals, standing for the decimal text stored in the cell. -/
inductive Value
  | vString (s : String)
  | vInt (i : Int)
  | vReal (r : Rat)
  | vDate (y m d : Nat)
  | vTime (h mi s : Nat)
  | vDateTime (dt : DateTimeValue)
  deriving DecidableEq

/-- Modelled from the spec: a raw worksheet cell.  A cell is either a
shared-string reference (`t="s"`), an inline string (`t="inlineStr"`),
a boolean-styled cell (`t="b"`), a plain numeric cell (payload the exact
rational denoted by its decimal text), or a numeric cell carrying a
date/time/datetime number-format style; for the latter the calendar
components denoted by its serial value are carried directly, and a
datetime style records whether its format has a milliseconds part. -/
inductive Cell
  | sharedStr (idx : Nat)
  | inlineStr (s : String)
  | boolCell (b : Bool)
  | number (v : Rat)
  | dateCell (y m d : Nat)
  | timeCell (h mi s : Nat)
  | dateTimeCell (dt : DateTimeValue) (withMs : Bool)
  deriving DecidableEq

/-- A worksheet row: sparse list of (0-based column index, cell). -/
abbrev RawRow := List (Nat × Cell)

/-- Modelled from the spec: one worksheet part — its sheet name and its
rows in declaration order. -/
structure SheetPart where
  name : String
  rows : List RawRow
  deriving DecidableEq

/-- Modelled from the spec: a workbook document — the shared-strings
table (global to all sheets) and the ordered sheets. -/
structure Document where
  sharedStrings : List String
  sheets : List SheetPart
  deriving DecidableEq

/-! ## Column-letter encoding (writer, spec 4.6) -/

/-- Modelled from the spec: bijective base-26 column-letter encoding,
with explicit fuel (the fuel is always at least the column number, which
bounds the iteration count).  Column 1 is "A", 26 is "Z", 27 is "AA". -/
def colLetterChars : Nat → Nat → List Char
  | 0, _ => []
  | _ + 1, 0 => []
  | fuel + 1, n + 1 => colLetterChars fuel (n / 26) ++ [Char.ofNat (65 + n % 26)]

/-- The column-letter string of a 1-based column number. -/
def colLetter (n : Nat) : String := ⟨colLetterChars n n⟩

/-- The numeric value denoted by a column-letter character sequence
(the standard bijective base-26 reading, A=1 … Z=26). -/
def colValue (l : List Char) : Nat :=
  l.foldl (fun acc c => acc * 26 + (c.toNat - 64)) 0

/-- Whether a character is an upper-case letter A..Z. -/
def isUpperAlpha (c : Char) : Bool := 65 ≤ c.toNat && c.toNat ≤ 90

/-- The cell-reference attribute of the cell at 1-based column `col` and
1-based row `row`, e.g. `cellRef 27 1 = "AA1"`. -/
def cellRef (col row : Nat) : String := colLetter col ++ toString row

/-! ## Reader: header detection, type inference, materialization -/

/-- Header-row handling mode (`OGR_XLSX_HEADERS` / `HEADERS` option). -/
inductive HeaderMode
  | AUTO
  | FORCE
  | DISABLE
  deriving DecidableEq

/-- Whether a raw cell carries a string representation (shared string or
inline string). -/
def isStringCell : Cell → Bool
  | .sharedStr _ => true
  | .inlineStr _ => true
  | _ => false

/-- Modelled from the spec: the AUTO header-row heuristic.  The first
row is treated as headers only when it is non-empty and all-string, and
either no further row exists (a freshly written schema-only sheet) or
some later row carries a differing (non-string) cell type.  FORCE and
DISABLE override the heuristic. -/
def headerDetected (mode : HeaderMode) (rows : List RawRow) : Bool :=
  match mode with
  | .FORCE => true
  | .DISABLE => false
  | .AUTO =>
    match rows with
    | [] => false
    | first :: rest =>
      !first.isEmpty && first.all (fun p => isStringCell p.2) &&
        (rest.isEmpty || rest.any (fun r => r.any (fun p => !isStringCell p.2)))

/-- The cell of a sparse row at a given 0-based column index, if any. -/
def cellAt (row : RawRow) (j : Nat) : Option Cell :=
  (row.find? (fun p => p.1 == j)).map (fun p => p.2)

/-- One past the largest column index referenced by a row (0 when the
row is empty). -/
def rowMaxCol (row : RawRow) : Nat :=
  row.foldl (fun m p => max m (p.1 + 1)) 0

/-- Modelled from the spec: the field count of a sheet is the maximum
column reference seen across all rows (header row included), so a
trailing column that only ever appears in data rows is still counted. -/
def sheetFieldCount (rows : List RawRow) : Nat :=
  rows.foldl (fun m r => max m (rowMaxCol r)) 0

/-- Lower bound of the 32-bit signed integer range. -/
def int32Min : Int := -2147483648

/-- Upper bound of the 32-bit signed integer range. -/
def int32Max : Int := 2147483647

/-- Modelled from the spec: the observed (type, subtype) of a single raw
cell.  String cells observe String; boolean-styled cells observe Integer
with the Boolean subtype; numeric cells with integral text observe
Integer when in 32-bit range and Integer64 beyond it, and Real
otherwise; date-styled cells observe the corresponding date type. -/
def obsType : Cell → FieldType × FieldSubType
  | .sharedStr _ => (.OFTString, .OFSTNone)
  | .inlineStr _ => (.OFTString, .OFSTNone)
  | .boolCell _ => (.OFTInteger, .OFSTBoolean)
  | .number v =>
    if v.den = 1 then
      if int32Min ≤ v.num ∧ v.num ≤ int32Max then (.OFTInteger, .OFSTNone)
      else (.OFTInteger64, .OFSTNone)
    else (.OFTReal, .OFSTNone)
  | .dateCell _ _ _ => (.OFTDate, .OFSTNone)
  | .timeCell _ _ _ => (.OFTTime, .OFSTNone)
  | .dateTimeCell _ _ => (.OFTDateTime, .OFSTNone)

/-- Modelled from the spec: position of a logical type in the widening
lattice, from most specific (Integer) to least specific (String); the
three date/time types share a level. -/
def typeRank : FieldType → Nat
  | .OFTInteger => 0
  | .OFTInteger64 => 1
  | .OFTReal => 2
  | .OFTDate => 3
  | .OFTTime => 3
  | .OFTDateTime => 3
  | .OFTString => 4

/-- Modelled from the spec: join of two observed logical types in the
widening lattice.  Equal types stay; distinct types of the same rank
(the date/time level) widen all the way to String; otherwise the less
specific of the two wins. -/
def typeJoin (a b : FieldType) : FieldType :=
  if a = b then a
  else if typeRank a = typeRank b then .OFTString
  else if typeRank a < typeRank b then b else a

/-- Modelled from the spec: join of two observed (type, subtype) pairs.
The Boolean subtype survives only while every observed cell carries the
boolean marker. -/
def join2 (a b : FieldType × FieldSubType) : FieldType × FieldSubType :=
  (typeJoin a.1 b.1,
   if a.2 = FieldSubType.OFSTBoolean ∧ b.2 = FieldSubType.OFSTBoolean then
     FieldSubType.OFSTBoolean
   else FieldSubType.OFSTNone)

/-- Modelled from the spec: merge one (possibly absent) cell of a column
into the column's accumulated observation.  An entirely empty cell never
constrains the column's type. -/
def mergeObs (st : Option (FieldType × FieldSubType)) (c : Option Cell) :
    Option (FieldType × FieldSubType) :=
  match c with
  | none => st
  | some c =>
    match st with
    | none => some (obsType c)
    | some t => some (join2 t (obsType c))

/-- Modelled from the spec: the accumulated observation of column `j`
after streaming all data rows once. -/
def inferColumn (rows : List RawRow) (j : Nat) :
    Option (FieldType × FieldSubType) :=
  rows.foldl (fun st row => mergeObs st (cellAt row j)) none

/-- The final (type, subtype) of column `j`: a column with no observed
cell at all defaults to String. -/
def columnSchema (rows : List RawRow) (j : Nat) : FieldType × FieldSubType :=
  (inferColumn rows j).getD (.OFTString, .OFSTNone)

/-- The positional field name used when no header text is available:
"Field1", "Field2", … -/
def positionalName (j : Nat) : String := "Field" ++ toString (j + 1)

/-- Modelled from the spec: the name of field `j` taken from the header
row — shared-string and inline-string header cells give their text, a
missing or non-string header cell falls back to the positional name. -/
def headerName (tbl : List String) (hdr : RawRow) (j : Nat) : String :=
  match cellAt hdr j with
  | some (.sharedStr i) => tbl.getD i (positionalName j)
  | some (.inlineStr s) => s
  | _ => positionalName j

/-- Modelled from the spec: materialize one raw cell as a typed value
under the column's inferred logical type.  A datetime-styled numeric
cell whose number format has no milliseconds part truncates sub-second
precision to whole seconds. -/
def materializeCell (tbl : List String) (ft : FieldType) (c : Cell) : Value :=
  match c with
  | .sharedStr i => .vString (tbl.getD i "")
  | .inlineStr s => .vString s
  | .boolCell b => .vInt (if b then 1 else 0)
  | .number v =>
    match ft with
    | .OFTInteger => .vInt v.num
    | .OFTInteger64 => .vInt v.num
    | _ => .vReal v
  | .dateCell y m d => .vDate y m d
  | .timeCell h mi s => .vTime h mi s
  | .dateTimeCell dt withMs =>
    .vDateTime (if withMs then dt else { dt with millisecond := 0 })

/-- Materialize one sparse row against the column types, starting at
column index `j`: a column with no cell yields an unset (none) value,
never shifting later columns into the gap. -/
def materializeRowAux (tbl : List String) :
    List FieldType → Nat → RawRow → List (Option Value)
  | [], _, _ => []
  | t :: ts, j, row =>
    ((cellAt row j).map (materializeCell tbl t)) ::
      materializeRowAux tbl ts (j + 1) row

/-- Materialize one sparse row against the column types of a schema. -/
def materializeRow (tbl : List String) (types : List FieldType)
    (row : RawRow) : List (Option Value) :=
  materializeRowAux tbl types 0 row

/-- A materialized feature: its identifier and its values, aligned to
the field schema (unset values are `none`). -/
structure RFeature where
  fid : Nat
  values : List (Option Value)
  deriving DecidableEq

/-- Geometry types relevant to this driver. -/
inductive GeomType
  | wkbNone
  | wkbUnknown
  | wkbPoint
  deriving DecidableEq

/-- A layer as exposed to the reading application: name, field schema,
materialized features, geometry type and spatial reference. -/
structure RLayer where
  name : String
  fields : List FieldDefn
  features : List RFeature
  geomType : GeomType
  spatialRef : Option String
  deriving DecidableEq

/-- Materialize a run of data rows, assigning each feature the 1-based
sheet row number of its row (`rowNum` is the sheet row number of the
first row of the run). -/
def materializeRows (tbl : List String) (types : List FieldType) :
    List RawRow → Nat → List RFeature
  | [], _ => []
  | r :: rs, rowNum =>
    ⟨rowNum, materializeRow tbl types r⟩ ::
      materializeRows tbl types rs (rowNum + 1)

/-- Modelled from the spec: read one worksheet part into a layer.  The
header row (when detected) supplies field names and is excluded from
type inference and from the features; field count is the maximum column
reference across all rows; every layer is purely tabular (geometry type
`wkbNone`, no spatial reference); feature identifiers are 1-based sheet
row numbers, so the first data feature of a header-bearing sheet has
identifier 2. -/
def readSheet (tbl : List String) (mode : HeaderMode) (part : SheetPart) :
    RLayer :=
  let hasHdr := headerDetected mode part.rows
  let hdr := if hasHdr then part.rows.headD [] else []
  let dataRows := if hasHdr then part.rows.tail else part.rows
  let n := sheetFieldCount part.rows
  let fields := (List.range n).map (fun j =>
    { name := if hasHdr then headerName tbl hdr j else positionalName j
      fieldType := (columnSchema dataRows j).1
      subType := (columnSchema dataRows j).2 : FieldDefn })
  { name := part.name
    fields := fields
    features := materializeRows tbl (fields.map (fun f => f.fieldType))
      dataRows (if hasHdr then 2 else 1)
    geomType := .wkbNone
    spatialRef := none }

/-- Read a whole workbook document: one layer per sheet, in sheet
declaration order, all sharing the shared-strings table. -/
def readDocument (mode : HeaderMode) (doc : Document) : List RLayer :=
  doc.sheets.map (readSheet doc.sharedStrings mode)

/-! ## Writer (spec 4.6) -/

/-- Modelled from the spec: a layer under construction on the write
path — its sheet name, the fields declared through `declareField`, and
the features appended through `appendFeature` (values aligned to the
declared fields, unset values `none`). -/
structure WLayer where
  name : String
  fields : List FieldDefn
  features : List (List (Option Value))
  deriving DecidableEq

/-- Modelled from the spec: intern a string into the shared-strings
table.  The spec licenses append-only interning ("driver may choose
append-only for simplicity — must still produce valid index
references"). -/
def internStr (tbl : List String) (s : String) : List String × Nat :=
  (tbl ++ [s], tbl.length)

/-- Modelled from the spec: serialize one value as a raw cell, possibly
growing the shared-strings table.  Strings become shared-string
references; an Integer field with the Boolean subtype is written as a
boolean-styled cell; numeric values become plain numeric cells; date and
time values become date-styled numeric cells, a datetime getting a
milliseconds number format exactly when its millisecond component is
non-zero. -/
def writeCell (tbl : List String) (fd : FieldDefn) :
    Value → List String × Cell
  | .vString s =>
    let p := internStr tbl s
    (p.1, .sharedStr p.2)
  | .vInt i =>
    if fd.subType = .OFSTBoolean then (tbl, .boolCell (i != 0))
    else (tbl, .number (i : Rat))
  | .vReal r => (tbl, .number r)
  | .vDate y m d => (tbl, .dateCell y m d)
  | .vTime h mi s => (tbl, .timeCell h mi s)
  | .vDateTime dt => (tbl, .dateTimeCell dt (dt.millisecond != 0))

/-- Serialize the cells of one feature row: field `j` with a set value
becomes a cell at column `j`; an unset value produces no cell at all
(sparse row). -/
def writeCells (tbl : List String) :
    List (FieldDefn × Option Value) → Nat → List String × RawRow
  | [], _ => (tbl, [])
  | (_, none) :: rest, j => writeCells tbl rest (j + 1)
  | (fd, some v) :: rest, j =>
    let p := writeCell tbl fd v
    let q := writeCells p.1 rest (j + 1)
    (q.1, (j, p.2) :: q.2)

/-- Serialize the header row: each declared field name is interned as a
shared string and written at the field's column. -/
def writeHeaderCells (tbl : List String) :
    List FieldDefn → Nat → List String × RawRow
  | [], _ => (tbl, [])
  | fd :: rest, j =>
    let p := internStr tbl fd.name
    let q := writeHeaderCells p.1 rest (j + 1)
    (q.1, (j, .sharedStr p.2) :: q.2)

/-- Serialize every appended feature into its sparse data row. -/
def writeFeatureRows (tbl : List String) (fields : List FieldDefn) :
    List (List (Option Value)) → List String × List RawRow
  | [] => (tbl, [])
  | f :: fs =>
    let p := writeCells tbl (fields.zip f) 0
    let q := writeFeatureRows p.1 fields fs
    (q.1, p.2 :: q.2)

/-- Modelled from the spec: flush one layer into a worksheet part — a
header row carrying the field names followed by one sparse data row per
feature — growing the shared-strings table as strings are interned. -/
def flushLayer (tbl : List String) (L : WLayer) : List String × SheetPart :=
  let p := writeHeaderCells tbl L.fields 0
  let q := writeFeatureRows p.1 L.fields L.features
  (q.1, ⟨L.name, p.2 :: q.2⟩)

/-- Modelled from the spec: append one newly created layer to an
existing document, leaving every previously written sheet untouched and
only extending the shared-strings table. -/
def appendLayer (doc : Document) (L : WLayer) : Document :=
  let p := flushLayer doc.sharedStrings L
  ⟨p.1, doc.sheets ++ [p.2]⟩

/-- The empty document produced by `CreateDataSource`. -/
def emptyDoc : Document := ⟨[], []⟩

/-- Write a fresh document holding the given layers in order. -/
def writeDocument (layers : List WLayer) : Document :=
  layers.foldl appendLayer emptyDoc

/-- The document holding exactly one freshly written layer. -/
def writeLayerDoc (L : WLayer) : Document := appendLayer emptyDoc L

/-- Re-open a freshly written single-layer document and read its layer
back (AUTO header mode, the open-time default). -/
def readBackLayer (L : WLayer) : RLayer :=
  readSheet (writeLayerDoc L).sharedStrings .AUTO
    ((writeLayerDoc L).sheets.headD ⟨"", []⟩)

/-- The emitted cell-reference attributes of a run of rows whose first
row has 1-based sheet row number `k`. -/
def rowsRefs : List RawRow → Nat → List (List String)
  | [], _ => []
  | r :: rs, k => r.map (fun p => cellRef (p.1 + 1) k) :: rowsRefs rs (k + 1)

/-- The emitted cell-reference attributes of a whole worksheet part, row
by row (sheet rows are numbered from 1). -/
def sheetCellRefs (part : SheetPart) : List (List String) :=
  rowsRefs part.rows 1

/-! ## Conformance of written values to the declared schema -/

/-- Modelled from the spec: whether a value conforms to the declared
field — strings to String fields, 32-bit-range integers to Integer
fields (only 0 and 1 when the subtype is Boolean), any integer to
Integer64 fields, rationals to Real fields, calendar values to their
date types.  The Boolean subtype occurs only on Integer fields. -/
def valueConforms (fd : FieldDefn) (v : Value) : Bool :=
  match v with
  | .vString _ => fd.fieldType == .OFTString && fd.subType == .OFSTNone
  | .vInt i =>
    match fd.fieldType with
    | .OFTInteger =>
      decide (int32Min ≤ i) && decide (i ≤ int32Max) &&
        (fd.subType == .OFSTNone || i == 0 || i == 1)
    | .OFTInteger64 => fd.subType == .OFSTNone
    | _ => false
  | .vReal _ => fd.fieldType == .OFTReal && fd.subType == .OFSTNone
  | .vDate _ _ _ => fd.fieldType == .OFTDate && fd.subType == .OFSTNone
  | .vTime _ _ _ => fd.fieldType == .OFTTime && fd.subType == .OFSTNone
  | .vDateTime _ => fd.fieldType == .OFTDateTime && fd.subType == .OFSTNone

/-- Whether a feature's value list conforms to the declared fields:
same length, every set value conforming to its field. -/
def featureConforms (fields : List FieldDefn)
    (vals : List (Option Value)) : Bool :=
  vals.length == fields.length &&
    (fields.zip vals).all (fun p => p.2.all (valueConforms p.1))

/-- Whether every appended feature of a layer conforms to its declared
fields. -/
def layerWellFormed (L : WLayer) : Bool :=
  L.features.all (featureConforms L.fields)

/-! ## Textual date/time input (spec 4.5) -/

/-- Split a character list on a separator character (the separator is
dropped; `n` separators yield `n + 1` groups). -/
def splitOnChar (sep : Char) : List Char → List (List Char)
  | [] => [[]]
  | c :: cs =>
    let r := splitOnChar sep cs
    if c = sep then [] :: r
    else
      match r with
      | [] => [[c]]
      | g :: gs => (c :: g) :: gs

/-- Read a non-empty all-digit character group as a natural number. -/
def digitsToNat? (l : List Char) : Option Nat :=
  if l.isEmpty then none
  else if l.all (fun c => c.isDigit) then
    some (l.foldl (fun acc c => acc * 10 + (c.toNat - 48)) 0)
  else none

/-- The millisecond count denoted by the fractional-second digit group
of a textual datetime: the first three digits, right-padded with zeros
(so ".789" gives 789 and ".000" gives 0). -/
def msOfFrac (frac : List Char) : Option Nat :=
  digitsToNat? ((frac ++ ['0', '0', '0']).take 3)

/-- Modelled from the spec: parse textual datetime input of the form
"Y/M/D h:m:s" with an optional fractional-second part "Y/M/D h:m:s.f".
Explicit milliseconds are kept; input without a fractional part gets a
zero millisecond component. -/
def parseDateTimeText (s : String) : Option DateTimeValue :=
  match splitOnChar ' ' s.data with
  | [d, t] =>
    match splitOnChar '/' d, splitOnChar ':' t with
    | [ys, mos, das], [hs, mis, ss] =>
      match splitOnChar '.' ss with
      | [sec] => do
        let y ← digitsToNat? ys
        let mo ← digitsToNat? mos
        let da ← digitsToNat? das
        let h ← digitsToNat? hs
        let mi ← digitsToNat? mis
        let se ← digitsToNat? sec
        pure ⟨y, mo, da, h, mi, se, 0⟩
      | [sec, frac] => do
        let y ← digitsToNat? ys
        let mo ← digitsToNat? mos
        let da ← digitsToNat? das
        let h ← digitsToNat? hs
        let mi ← digitsToNat? mis
        let se ← digitsToNat? sec
        let ms ← msOfFrac frac
        pure ⟨y, mo, da, h, mi, se, ms⟩
      | _ => none
    | _, _ => none
  | _ => none

/-- Zero-pad a natural number to two decimal digits. -/
def pad2 (n : Nat) : String :=
  if n < 10 then "0" ++ toString n else toString n

/-- Zero-pad a natural number to three decimal digits. -/
def pad3 (n : Nat) : String :=
  if n < 10 then "00" ++ toString n
  else if n < 100 then "0" ++ toString n
  else toString n

/-- Modelled from the spec: the textual rendering of a datetime value
("Y/MM/DD hh:mm:ss"), with a ".mmm" fractional part exactly when the
millisecond component is non-zero. -/
def formatDateTimeValue (dt : DateTimeValue) : String :=
  toString dt.year ++ "/" ++ pad2 dt.month ++ "/" ++ pad2 dt.day ++ " " ++
    pad2 dt.hour ++ ":" ++ pad2 dt.minute ++ ":" ++ pad2 dt.second ++
    (if dt.millisecond = 0 then "" else "." ++ pad3 dt.millisecond)

/-- A single-field DateTime layer holding one feature with the given
datetime value (the shape of the milliseconds round-trip test). -/
def dtLayer (dt : DateTimeValue) : WLayer :=
  ⟨"foo", [⟨"Field1", .OFTDateTime, .OFSTNone⟩], [[some (.vDateTime dt)]]⟩

/-- Parse textual datetime input, write it through a single-field
DateTime layer, re-open the document, and render the value read back. -/
def readBackFormatted (s : String) : Option String :=
  (parseDateTimeText s).map (fun dt =>
    match ((readBackLayer (dtLayer dt)).features.headD ⟨0, []⟩).values.headD
        none with
    | some (.vDateTime d) => formatDateTimeValue d
    | _ => "")

/-! ## Document well-formedness (shared-string references in range) -/

/-- Whether a cell's shared-string reference (if any) is a valid index
into a shared-strings table of length `n`. -/
def cellIndexOk (n : Nat) : Cell → Bool
  | .sharedStr i => i < n
  | _ => true

/-- Whether every shared-string reference of a worksheet part is a valid
index into a shared-strings table of length `n`. -/
def sheetIndexOk (n : Nat) (part : SheetPart) : Bool :=
  part.rows.all (fun r => r.all (fun p => cellIndexOk n p.2))

/-- Whether every shared-string reference of a document resolves inside
its shared-strings table. -/
def docWellFormed (doc : Document) : Bool :=
  doc.sheets.all (sheetIndexOk doc.sharedStrings.length)

/-- A 30-field layer with one feature, the shape of the wide-layer
writing test: field `i + 1` named positionally, all values strings. -/
def demo30Layer : WLayer :=
  ⟨"foo",
   (List.range 30).map (fun i => ⟨positionalName i, .OFTString, .OFSTNone⟩),
   [(List.range 30).map (fun i => some (.vString ("val" ++ toString (i + 1))))]⟩

/-- Whether a cell is a numeric cell with integral text. -/
def isIntNumberCell : Cell → Bool
  | .number v => v.den == 1
  | _ => false

/-- Whether a cell is a numeric cell with integral text beyond the
32-bit signed range. -/
def isBigIntCell : Cell → Bool
  | .number v => v.den == 1 && (v.num < int32Min || int32Max < v.num)
  | _ => false

/-- The Boolean-subtype layer of the boolean round-trip test: one
Integer field with the Boolean subtype, one feature with value 1. -/
def demoBoolLayer : WLayer :=
  ⟨"foo", [⟨"Field1", .OFTInteger, .OFSTBoolean⟩], [[some (.vInt 1)]]⟩

/-- A layer with a single String field and one string feature. -/
def demoStringLayer : WLayer :=
  ⟨"foo", [⟨"strfield", .OFTString, .OFSTNone⟩], [[some (.vString "bar")]]⟩

/-- A header-bearing sheet with two data rows, the shape of sheet
"Feuille7" of the reading tests: all-string header in sheet row 1,
mixed-type data in sheet rows 2 and 3. -/
def demoSheet : SheetPart :=
  ⟨"Feuille7",
   [[(0, .inlineStr "a"), (1, .inlineStr "b")],
    [(0, .inlineStr "val"), (1, .number 23)],
    [(0, .inlineStr "val2"), (1, .number 24)]]⟩

/-- Rows of a one-column sheet holding the integers 1 and
12345678901234 (the Integer64 inference test). -/
def demoInt64Rows : List RawRow :=
  [[(0, .number 1)], [(0, .number 12345678901234)]]

/-- The first layer of the two-sheet document of the append test. -/
def demoLayerA : WLayer :=
  ⟨"first", [⟨"EAS_ID", .OFTInteger, .OFSTNone⟩], [[some (.vInt 168)]]⟩

/-- The second layer of the two-sheet document of the append test. -/
def demoLayerB : WLayer :=
  ⟨"second", [⟨"EAS_ID", .OFTInteger, .OFSTNone⟩], [[some (.vInt 179)]]⟩

/-- The layer appended in update mode by the append test. -/
def demoLayerC : WLayer :=
  ⟨"L3", [⟨"baz", .OFTInteger, .OFSTNone⟩], [[some (.vInt 123)]]⟩

/-- The two-sheet document the append test starts from. -/
def demoDoc2 : Document := writeDocument [demoLayerA, demoLayerB]

/-- A layer with one declared field and no features (the zero-row sheet
of the writing tests). -/
def demoEmptyLayer : WLayer := ⟨"L1", [⟨"foo", .OFTString, .OFSTNone⟩], []⟩

/-- A sparse row with cells only at columns 0 and 27 (the shape of the
sparse-column reading test). -/
def demoSparseRow : RawRow :=
  [(0, .inlineStr "val1"), (27, .inlineStr "val28")]

/-- A one-sheet document holding the demo sheet. -/
def demoDoc1 : Document := ⟨[], [demoSheet]⟩

/-! ## Lemmas about the column-letter encoding -/

theorem colLetterChars_zero (fuel : Nat) : colLetterChars fuel 0 = [] := by
  cases fuel <;> rfl

theorem colLetterChars_fuel :
    ∀ n fuel, n ≤ fuel → colLetterChars fuel n = colLetterChars n n := by
  intro n
  induction n using Nat.strong_induction_on with
  | _ n ih =>
    intro fuel hle
    match n, fuel with
    | 0, fuel => simp [colLetterChars_zero]
    | n + 1, fuel + 1 =>
      show colLetterChars fuel (n / 26) ++ _ =
        colLetterChars n (n / 26) ++ _
      have hd : n / 26 ≤ n := Nat.div_le_self n 26
      have h1 : colLetterChars fuel (n / 26) =
          colLetterChars (n / 26) (n / 26) :=
        ih (n / 26) (Nat.lt_succ_of_le hd) fuel
          (le_trans hd (Nat.le_of_succ_le_succ hle))
      have h2 : colLetterChars n (n / 26) =
          colLetterChars (n / 26) (n / 26) :=
        ih (n / 26) (Nat.lt_succ_of_le hd) n hd
      rw [h1, h2]

theorem colValue_append_singleton (l : List Char) (c : Char) :
    colValue (l ++ [c]) = colValue l * 26 + (c.toNat - 64) := by
  simp [colValue, List.foldl_append]

theorem char_toNat_letter (r : Nat) (h : r < 26) :
    (Char.ofNat (65 + r)).toNat = 65 + r := by
  interval_cases r <;> decide

theorem isUpperAlpha_letter (r : Nat) (h : r < 26) :
    isUpperAlpha (Char.ofNat (65 + r)) = true := by
  interval_cases r <;> decide

theorem colValue_colLetterChars :
    ∀ n, colValue (colLetterChars n n) = n := by
  intro n
  induction n using Nat.strong_induction_on with
  | _ n ih =>
    match n with
    | 0 => rfl
    | n + 1 =>
      have hd : n / 26 ≤ n := Nat.div_le_self n 26
      have hstep : colLetterChars (n + 1) (n + 1) =
          colLetterChars (n / 26) (n / 26) ++ [Char.ofNat (65 + n % 26)] := by
        show colLetterChars n (n / 26) ++ _ = _
        rw [colLetterChars_fuel (n / 26) n hd]
      rw [hstep, colValue_append_singleton,
        ih (n / 26) (Nat.lt_succ_of_le hd),
        char_toNat_letter (n % 26) (Nat.mod_lt n (by norm_num))]
      have := Nat.div_add_mod n 26
      omega

theorem colLetterChars_all_letters :
    ∀ n, (colLetterChars n n).all isUpperAlpha = true := by
  intro n
  induction n using Nat.strong_induction_on with
  | _ n ih =>
    match n with
    | 0 => rfl
    | n + 1 =>
      have hd : n / 26 ≤ n := Nat.div_le_self n 26
      have hstep : colLetterChars (n + 1) (n + 1) =
          colLetterChars (n / 26) (n / 26) ++ [Char.ofNat (65 + n % 26)] := by
        show colLetterChars n (n / 26) ++ _ = _
        rw [colLetterChars_fuel (n / 26) n hd]
      rw [hstep, List.all_append, ih (n / 26) (Nat.lt_succ_of_le hd)]
      simp [isUpperAlpha_letter (n % 26) (Nat.mod_lt n (by norm_num))]

theorem colLetterChars_ne_nil (n : Nat) (h : 1 ≤ n) :
    colLetterChars n n ≠ [] := by
  match n, h with
  | n + 1, _ =>
    show colLetterChars n (n / 26) ++ _ ≠ []
    simp

/-- C2: the writer's column-letter encoding is the bijective base-26
letter sequence with no zero digit — decoding the emitted letters by the
standard bijective base-26 reading recovers every column number `n ≥ 1`,
the emitted characters are all letters A..Z, `encode 1 = "A"`,
`encode 26 = "Z"`, `encode 27 = "AA"`, `encode 30 = "AD"`, and flushing
a layer with 30 fields emits the cell reference "AA1" for the 27th field
of the first row. -/
theorem colLetter_bijective_base26 :
    (∀ n, 1 ≤ n → colValue (colLetter n).data = n ∧
      (colLetter n).data ≠ [] ∧ (colLetter n).data.all isUpperAlpha = true)
    ∧ colLetter 1 = "A" ∧ colLetter 26 = "Z" ∧ colLetter 27 = "AA"
    ∧ colLetter 30 = "AD"
    ∧ ((sheetCellRefs (flushLayer [] demo30Layer).2).headD []).get? 26 =
        some "AA1" := by
  refine ⟨fun n h => ⟨colValue_colLetterChars n,
    colLetterChars_ne_nil n h, colLetterChars_all_letters n⟩,
    by decide, by decide, by decide, by decide, by decide⟩

/-- Witness for C2 at column 27: decoding "AA" gives back 27. -/
theorem colLetter_bijective_base26_witness :
    colValue (colLetter 27).data = 27 :=
  (colLetter_bijective_base26.1 27 (by decide)).1

/-! ## Lemmas about type inference -/

theorem mergeObs_absent (st : Option (FieldType × FieldSubType)) :
    mergeObs st none = st := rfl

theorem foldl_mergeObs_filter (j : Nat) :
    ∀ (rows : List RawRow) (st : Option (FieldType × FieldSubType)),
      rows.foldl (fun st row => mergeObs st (cellAt row j)) st =
        (rows.filter (fun r => (cellAt r j).isSome)).foldl
          (fun st row => mergeObs st (cellAt row j)) st := by
  intro rows
  induction rows with
  | nil => intro st; rfl
  | cons r rows ih =>
    intro st
    cases h : cellAt r j with
    | none =>
      have hcond : (cellAt r j).isSome = false := by rw [h]; rfl
      rw [List.foldl_cons, h, mergeObs_absent, List.filter_cons, hcond]
      simpa using ih st
    | some c =>
      have hcond : (cellAt r j).isSome = true := by rw [h]; rfl
      rw [List.foldl_cons, List.filter_cons, hcond]
      simpa using ih (mergeObs st (cellAt r j))

/-- C4: in AUTO field-type mode an entirely empty cell never constrains
a column's type — a column whose first data row lacks a value gets the
type inferred from the subsequent rows (not a String default), and in
general the accumulated observation of a column only depends on the rows
that do carry a cell in that column. -/
theorem infer_ignores_empty_cells :
    (∀ (rows : List RawRow) (j : Nat) (first : RawRow),
      cellAt first j = none →
      columnSchema (first :: rows) j = columnSchema rows j)
    ∧ (∀ (rows : List RawRow) (j : Nat),
        inferColumn rows j =
          inferColumn (rows.filter (fun r => (cellAt r j).isSome)) j) := by
  constructor
  · intro rows j first h
    simp [columnSchema, inferColumn, h, mergeObs]
  · intro rows j
    exact foldl_mergeObs_filter j rows none

/-- Witness for C4: a first data row with no cell in column 0 leaves the
column's type to the later rows, here inferred as Integer. -/
theorem infer_ignores_empty_cells_witness :
    columnSchema ([] :: [[(0, Cell.number 1)]]) 0 =
        columnSchema [[(0, Cell.number 1)]] 0
    ∧ columnSchema [[(0, Cell.number 1)]] 0 =
        (FieldType.OFTInteger, FieldSubType.OFSTNone) :=
  ⟨infer_ignores_empty_cells.1 [[(0, Cell.number 1)]] 0 [] rfl, by decide⟩

/-! ## Lemmas about Integer64 widening -/

theorem obsType_of_intNumber (c : Cell) (h : isIntNumberCell c = true) :
    obsType c = (.OFTInteger, .OFSTNone) ∨
      obsType c = (.OFTInteger64, .OFSTNone) := by
  cases c <;> simp [isIntNumberCell] at h
  rename_i v
  simp only [obsType, h, if_true]
  split
  · exact Or.inl rfl
  · exact Or.inr rfl

theorem obsType_of_bigInt (c : Cell) (h : isBigIntCell c = true) :
    obsType c = (.OFTInteger64, .OFSTNone) := by
  cases c <;> simp [isBigIntCell] at h
  rename_i v
  obtain ⟨hden, hrange⟩ := h
  simp only [obsType, hden, if_true]
  have : ¬(int32Min ≤ v.num ∧ v.num ≤ int32Max) := by
    simp only [int32Min, int32Max] at hrange ⊢
    omega
  rw [if_neg this]

theorem foldl_mergeObs_int64_absorb (j : Nat) :
    ∀ (rows : List RawRow),
      rows.all (fun r => ((cellAt r j).all isIntNumberCell)) = true →
      rows.foldl (fun st row => mergeObs st (cellAt row j))
          (some (.OFTInteger64, .OFSTNone)) =
        some (.OFTInteger64, .OFSTNone) := by
  intro rows
  induction rows with
  | nil => intro _; rfl
  | cons r rows ih =>
    intro hall
    rw [List.all_cons, Bool.and_eq_true] at hall
    rw [List.foldl_cons]
    cases h : cellAt r j with
    | none => exact ih hall.2
    | some c =>
      have hint : isIntNumberCell c = true := by
        have := hall.1; rwa [h, Option.all_some] at this
      have hobs := obsType_of_intNumber c hint
      have hmerge : mergeObs (some (.OFTInteger64, .OFSTNone)) (some c) =
          some (.OFTInteger64, .OFSTNone) := by
        rcases hobs with h1 | h1 <;> simp [mergeObs, h1, join2, typeJoin, typeRank]
      rw [hmerge]
      exact ih hall.2

theorem foldl_mergeObs_int64 (j : Nat) :
    ∀ (rows : List RawRow) (st : Option (FieldType × FieldSubType)),
      rows.all (fun r => ((cellAt r j).all isIntNumberCell)) = true →
      rows.any (fun r => ((cellAt r j).any isBigIntCell)) = true →
      (st = none ∨ st = some (.OFTInteger, .OFSTNone)) →
      rows.foldl (fun st row => mergeObs st (cellAt row j)) st =
        some (.OFTInteger64, .OFSTNone) := by
  intro rows
  induction rows with
  | nil => intro st _ hany _; simp at hany
  | cons r rows ih =>
    intro st hall hany hst
    rw [List.all_cons, Bool.and_eq_true] at hall
    rw [List.any_cons, Bool.or_eq_true] at hany
    rw [List.foldl_cons]
    cases h : cellAt r j with
    | none =>
      have htail : rows.any (fun r => ((cellAt r j).any isBigIntCell)) = true := by
        rcases hany with hh | ht
        · rw [h] at hh; simp at hh
        · exact ht
      exact ih st hall.2 htail hst
    | some c =>
      have hint : isIntNumberCell c = true := by
        have := hall.1; rwa [h, Option.all_some] at this
      rcases obsType_of_intNumber c hint with hobs | hobs
      · have hst' : mergeObs st (some c) = some (.OFTInteger, .OFSTNone) := by
          rcases hst with h1 | h1 <;>
            simp [mergeObs, h1, hobs, join2, typeJoin, typeRank]
        have htail : rows.any (fun r => ((cellAt r j).any isBigIntCell)) = true := by
          rcases hany with hh | ht
          · rw [h] at hh
            rw [Option.any_some] at hh
            have := obsType_of_bigInt c hh
            rw [hobs] at this
            simp at this
          · exact ht
        rw [hst']
        exact ih _ hall.2 htail (Or.inr rfl)
      · have hst' : mergeObs st (some c) = some (.OFTInteger64, .OFSTNone) := by
          rcases hst with h1 | h1 <;>
            simp [mergeObs, h1, hobs, join2, typeJoin, typeRank]
        rw [hst']
        exact foldl_mergeObs_int64_absorb j rows hall.2

/-- C6: a column whose sampled cells are all integral numbers, at least
one of which exceeds the 32-bit range, infers as Integer64 (not Real),
and an integral numeric cell materialized under Integer64 yields the
integer exactly. -/
theorem integer64_no_precision_loss :
    (∀ (rows : List RawRow) (j : Nat),
      rows.all (fun r => ((cellAt r j).all isIntNumberCell)) = true →
      rows.any (fun r => ((cellAt r j).any isBigIntCell)) = true →
      columnSchema rows j = (.OFTInteger64, .OFSTNone))
    ∧ (∀ (tbl : List String) (i : Int),
        materializeCell tbl .OFTInteger64 (.number (i : Rat)) = .vInt i) := by
  constructor
  · intro rows j hall hany
    have := foldl_mergeObs_int64 j rows none hall hany (Or.inl rfl)
    simp [columnSchema, inferColumn, this]
  · intro tbl i
    simp [materializeCell]

/-- Witness for C6 on the column `[1, 12345678901234]`: inferred as
Integer64 and the large value materialized exactly. -/
theorem integer64_no_precision_loss_witness :
    columnSchema demoInt64Rows 0 = (.OFTInteger64, .OFSTNone)
    ∧ materializeCell [] .OFTInteger64
        (.number ((12345678901234 : Int) : Rat)) = .vInt 12345678901234 :=
  ⟨integer64_no_precision_loss.1 demoInt64Rows 0 (by decide) (by decide),
   integer64_no_precision_loss.2 [] 12345678901234⟩

/-! ## Lemmas about sparse rows and the field count -/

theorem materializeRowAux_getElem? (tbl : List String) :
    ∀ (ts : List FieldType) (j k : Nat) (row : RawRow),
      (materializeRowAux tbl ts j row)[k]? =
        (ts[k]?).map (fun t =>
          (cellAt row (j + k)).map (materializeCell tbl t)) := by
  intro ts
  induction ts with
  | nil => intro j k row; simp [materializeRowAux]
  | cons t ts ih =>
    intro j k row
    match k with
    | 0 => simp [materializeRowAux]
    | k + 1 =>
      rw [materializeRowAux]
      rw [List.getElem?_cons_succ, List.getElem?_cons_succ, ih (j + 1) k row]
      have : j + 1 + k = j + (k + 1) := by omega
      rw [this]

theorem cellAt_of_mem :
    ∀ (row : RawRow) (j : Nat) (c : Cell),
      (row.map Prod.fst).Nodup → (j, c) ∈ row → cellAt row j = some c := by
  intro row
  induction row with
  | nil => intro j c _ hm; simp at hm
  | cons p row ih =>
    intro j c hnd hm
    rw [List.map_cons, List.nodup_cons] at hnd
    rcases List.mem_cons.mp hm with he | ht
    · have hp : p = (j, c) := he.symm
      subst hp
      rw [cellAt, List.find?_cons_of_pos _ (by simp)]
      rfl
    · have hj : p.1 ≠ j := by
        intro hjeq
        apply hnd.1
        rw [hjeq]
        exact List.mem_map.mpr ⟨(j, c), ht, rfl⟩
      rw [cellAt, List.find?_cons_of_neg _ (by simp [hj])]
      exact ih j c hnd.2 ht

theorem cellAt_of_not_mem :
    ∀ (row : RawRow) (j : Nat),
      (∀ c : Cell, (j, c) ∉ row) → cellAt row j = none := by
  intro row
  induction row with
  | nil => intro j _; rfl
  | cons p row ih =>
    intro j habs
    have hj : p.1 ≠ j := by
      intro hjeq
      exact habs p.2 (by rw [← hjeq]; exact List.mem_cons_self p row)
    rw [cellAt, List.find?_cons_of_neg _ (by simp [hj])]
    exact ih j (fun c hc => habs c (List.mem_cons_of_mem p hc))

theorem le_foldl_max {α : Type} (f : α → Nat) :
    ∀ (l : List α) (acc : Nat),
      acc ≤ l.foldl (fun m x => max m (f x)) acc := by
  intro l
  induction l with
  | nil => intro acc; exact le_refl acc
  | cons a l ih =>
    intro acc
    exact le_trans (Nat.le_max_left acc (f a)) (ih (max acc (f a)))

theorem foldl_max_mem_le {α : Type} (f : α → Nat) :
    ∀ (l : List α) (acc : Nat) (x : α), x ∈ l →
      f x ≤ l.foldl (fun m x => max m (f x)) acc := by
  intro l
  induction l with
  | nil => intro acc x hx; simp at hx
  | cons a l ih =>
    intro acc x hx
    rcases List.mem_cons.mp hx with he | ht
    · subst he; exact le_trans (Nat.le_max_right acc (f x)) (le_foldl_max f l _)
    · exact ih _ x ht

theorem foldl_max_attained {α : Type} (f : α → Nat) :
    ∀ (l : List α) (acc : Nat),
      l.foldl (fun m x => max m (f x)) acc = acc ∨
        ∃ x ∈ l, l.foldl (fun m x => max m (f x)) acc = f x := by
  intro l
  induction l with
  | nil => intro acc; exact Or.inl rfl
  | cons a l ih =>
    intro acc
    rw [List.foldl_cons]
    rcases ih (max acc (f a)) with h | ⟨x, hx, h⟩
    · have hmax : max acc (f a) = acc ∨ max acc (f a) = f a := by omega
      rcases hmax with h1 | h1
      · exact Or.inl (by rw [h, h1])
      · exact Or.inr ⟨a, List.mem_cons_self a l, by rw [h, h1]⟩
    · exact Or.inr ⟨x, List.mem_cons_of_mem a hx, h⟩

/-- C3: materializing a sparse row puts each present cell's value at
exactly its referenced field position and an unset (null) value at every
absent position — values are never shifted into gaps — and the schema's
field count is the maximum column reference seen across all rows
(attained by some cell when non-zero), which is exactly the layer's
field count. -/
theorem sparse_columns_no_shift :
    (∀ (tbl : List String) (types : List FieldType) (row : RawRow)
        (j : Nat) (c : Cell),
      (row.map Prod.fst).Nodup → (j, c) ∈ row → j < types.length →
      (materializeRow tbl types row)[j]? =
        some (some (materializeCell tbl (types.getD j .OFTString) c)))
    ∧ (∀ (tbl : List String) (types : List FieldType) (row : RawRow)
        (j : Nat),
      (∀ c : Cell, (j, c) ∉ row) → j < types.length →
      (materializeRow tbl types row)[j]? = some none)
    ∧ (∀ (rows : List RawRow) (row : RawRow) (p : Nat × Cell),
        row ∈ rows → p ∈ row → p.1 + 1 ≤ sheetFieldCount rows)
    ∧ (∀ rows : List RawRow, sheetFieldCount rows = 0 ∨
        ∃ row ∈ rows, ∃ p ∈ row, p.1 + 1 = sheetFieldCount rows)
    ∧ (∀ (tbl : List String) (mode : HeaderMode) (part : SheetPart),
        (readSheet tbl mode part).fields.length =
          sheetFieldCount part.rows) := by
  refine ⟨?_, ?_, ?_, ?_, ?_⟩
  · intro tbl types row j c hnd hm hlt
    rw [materializeRow, materializeRowAux_getElem?, Nat.zero_add,
      cellAt_of_mem row j c hnd hm, List.getElem?_eq_getElem hlt]
    rw [List.getD_eq_getElem?_getD, List.getElem?_eq_getElem hlt]
    rfl
  · intro tbl types row j habs hlt
    rw [materializeRow, materializeRowAux_getElem?, Nat.zero_add,
      cellAt_of_not_mem row j habs, List.getElem?_eq_getElem hlt]
    rfl
  · intro rows row p hrow hp
    have h1 : p.1 + 1 ≤ rowMaxCol row :=
      foldl_max_mem_le (fun q : Nat × Cell => q.1 + 1) row 0 p hp
    have h2 : rowMaxCol row ≤ sheetFieldCount rows :=
      foldl_max_mem_le rowMaxCol rows 0 row hrow
    exact le_trans h1 h2
  · intro rows
    rcases foldl_max_attained rowMaxCol rows 0 with h | ⟨row, hrow, h⟩
    · exact Or.inl h
    · have h2 : sheetFieldCount rows = rowMaxCol row := h
      rcases foldl_max_attained (fun p : Nat × Cell => p.1 + 1) row 0 with
        h0 | ⟨p, hp, hpe⟩
      · have h3 : rowMaxCol row = 0 := h0
        exact Or.inl (by rw [h2, h3])
      · have h3 : rowMaxCol row = p.1 + 1 := hpe
        exact Or.inr ⟨row, hrow, p, hp, by rw [h2, h3]⟩
  · intro tbl mode part
    simp [readSheet]

/-- Witness for C3 on a row with cells only at columns 0 and 27 of a
28-column schema: column 27 gets its own value, column 1 reads back
null, and the sparse row alone forces a 28-field schema. -/
theorem sparse_columns_no_shift_witness :
    (materializeRow [] (List.replicate 28 .OFTString) demoSparseRow)[27]? =
        some (some (.vString "val28"))
    ∧ (materializeRow [] (List.replicate 28 .OFTString) demoSparseRow)[1]? =
        some none
    ∧ 28 ≤ sheetFieldCount [demoSparseRow] :=
  ⟨by
    have := sparse_columns_no_shift.1 [] (List.replicate 28 .OFTString)
      demoSparseRow 27 (.inlineStr "val28") (by decide) (by decide) (by decide)
    simpa using this,
   sparse_columns_no_shift.2.1 [] (List.replicate 28 .OFTString)
     demoSparseRow 1 (by intro c hc; simp [demoSparseRow] at hc) (by decide),
   sparse_columns_no_shift.2.2.1 [demoSparseRow] demoSparseRow
     (27, .inlineStr "val28") (by decide) (by decide)⟩

/-! ## Lemmas about feature runs -/

theorem materializeRows_length (tbl : List String) (types : List FieldType) :
    ∀ (rows : List RawRow) (k : Nat),
      (materializeRows tbl types rows k).length = rows.length := by
  intro rows
  induction rows with
  | nil => intro k; rfl
  | cons r rows ih => intro k; simp [materializeRows, ih]

theorem materializeRows_fids (tbl : List String) (types : List FieldType) :
    ∀ (rows : List RawRow) (k : Nat),
      (materializeRows tbl types rows k).map (fun f => f.fid) =
        List.range' k rows.length := by
  intro rows
  induction rows with
  | nil => intro k; rfl
  | cons r rows ih =>
    intro k
    rw [materializeRows, List.map_cons, ih (k + 1), List.length_cons,
      List.range'_succ]

/-- C7: reading a sheet with headers disabled yields one feature per
sheet row (the would-be header row included) with positional field
names "Field1", "Field2", …, whereas reading the same sheet with the
header row recognized (detected in AUTO mode, or forced) yields one
feature fewer. -/
theorem headers_disable_positional :
    (∀ (tbl : List String) (part : SheetPart),
      (readSheet tbl .DISABLE part).features.length = part.rows.length)
    ∧ (∀ (tbl : List String) (part : SheetPart),
        (readSheet tbl .DISABLE part).fields.map (fun f => f.name) =
          (List.range (sheetFieldCount part.rows)).map positionalName)
    ∧ (∀ (tbl : List String) (part : SheetPart),
        headerDetected .AUTO part.rows = true →
        (readSheet tbl .AUTO part).features.length = part.rows.length - 1)
    ∧ (∀ (tbl : List String) (part : SheetPart),
        (readSheet tbl .FORCE part).features.length =
          part.rows.length - 1) := by
  refine ⟨?_, ?_, ?_, ?_⟩
  · intro tbl part
    simp [readSheet, headerDetected, materializeRows_length]
  · intro tbl part
    simp [readSheet, headerDetected]
  · intro tbl part h
    simp [readSheet, h, materializeRows_length]
  · intro tbl part
    simp [readSheet, headerDetected, materializeRows_length]

/-- Witness for C7 on the three-row header-bearing demo sheet: headers
disabled gives 3 features, AUTO (header recognized) gives 2. -/
theorem headers_disable_positional_witness :
    (readSheet [] .DISABLE demoSheet).features.length = 3
    ∧ (readSheet [] .AUTO demoSheet).features.length = 2 :=
  ⟨by simpa using headers_disable_positional.1 [] demoSheet,
   by simpa using headers_disable_positional.2.2.1 [] demoSheet (by decide)⟩

/-- C9 (amended): the feature identifier is the 1-based sheet row
number of the feature's row, counting the header row when one is
recognized — so the k-th feature (0-based) has identifier k + 2 with a
header and k + 1 without. -/
theorem fid_is_sheet_row_number :
    ∀ (tbl : List String) (mode : HeaderMode) (part : SheetPart),
      (readSheet tbl mode part).features.map (fun f => f.fid) =
        List.range' (if headerDetected mode part.rows then 2 else 1)
          (readSheet tbl mode part).features.length := by
  intro tbl mode part
  cases h : headerDetected mode part.rows <;>
    simp [readSheet, h, materializeRows_fids, materializeRows_length]

/-- C9 counterexample: on a header-bearing sheet with two data rows the
features carry identifiers [2, 3], not the 1-based data row positions
[1, 2] the claim asserts. -/
theorem fid_counterexample :
    (readSheet [] .AUTO demoSheet).features.map (fun f => f.fid) = [2, 3]
    ∧ [2, 3] ≠ ([1, 2] : List Nat) :=
  ⟨by decide, by decide⟩

/-- C10: every layer of every opened workbook is purely tabular — its
geometry type is `wkbNone` and it carries no spatial reference. -/
theorem layers_purely_tabular :
    ∀ (mode : HeaderMode) (doc : Document) (lyr : RLayer),
      lyr ∈ readDocument mode doc →
      lyr.geomType = .wkbNone ∧ lyr.spatialRef = none := by
  intro mode doc lyr hmem
  rcases List.mem_map.mp hmem with ⟨part, _, hpart⟩
  exact ⟨by rw [← hpart]; rfl, by rw [← hpart]; rfl⟩

/-- Witness for C10 on the one-sheet demo document. -/
theorem layers_purely_tabular_witness :
    (readSheet ([] : List String) .AUTO demoSheet).geomType = .wkbNone
    ∧ (readSheet ([] : List String) .AUTO demoSheet).spatialRef = none :=
  layers_purely_tabular .AUTO demoDoc1 (readSheet [] .AUTO demoSheet)
    (by simp [readDocument, demoDoc1])

/-! ## Lemmas about textual datetime input -/

theorem splitOnChar_ne_nil (sep : Char) :
    ∀ l : List Char, splitOnChar sep l ≠ [] := by
  intro l
  induction l with
  | nil => simp [splitOnChar]
  | cons c cs ih =>
    rw [splitOnChar]
    by_cases h : c = sep
    · simp [h]
    · rw [if_neg h]
      cases hr : splitOnChar sep cs with
      | nil => simp
      | cons g gs => simp

theorem splitOnChar_mem_subset (sep : Char) :
    ∀ (l g : List Char), g ∈ splitOnChar sep l → ∀ c ∈ g, c ∈ l := by
  intro l
  induction l with
  | nil =>
    intro g hg c hc
    simp [splitOnChar] at hg
    subst hg
    simp at hc
  | cons a as ih =>
    intro g hg c hc
    rw [splitOnChar] at hg
    by_cases ha : a = sep
    · rw [if_pos ha] at hg
      rcases List.mem_cons.mp hg with he | ht
      · subst he; simp at hc
      · exact List.mem_cons_of_mem a (ih g ht c hc)
    · rw [if_neg ha] at hg
      cases hr : splitOnChar sep as with
      | nil => exact absurd hr (splitOnChar_ne_nil sep as)
      | cons g0 gs =>
        rw [hr] at hg
        rcases List.mem_cons.mp hg with he | ht
        · subst he
          rcases List.mem_cons.mp hc with hce | hct
          · subst hce; exact List.mem_cons_self c as
          · exact List.mem_cons_of_mem a
              (ih g0 (by rw [hr]; exact List.mem_cons_self g0 gs) c hct)
        · exact List.mem_cons_of_mem a
            (ih g (by rw [hr]; exact List.mem_cons_of_mem g0 ht) c hc)

theorem splitOnChar_of_no_sep (sep : Char) :
    ∀ l : List Char, (∀ c ∈ l, c ≠ sep) → splitOnChar sep l = [l] := by
  intro l
  induction l with
  | nil => intro _; rfl
  | cons a as ih =>
    intro hno
    rw [splitOnChar, if_neg (hno a (List.mem_cons_self a as)),
      ih (fun c hc => hno c (List.mem_cons_of_mem a hc))]

/-- C5: a datetime value written from textual input round-trips
exactly — the writer records a milliseconds number format exactly when
the parsed millisecond component is non-zero, the materializer truncates
sub-second precision to whole seconds for datetime cells without a
milliseconds format, textual input with no fractional part parses with a
zero millisecond component, and concretely "2015/12/23 12:34:56.789"
reads back as "2015/12/23 12:34:56.789" while "2015/12/23 12:34:56.000"
and "2015/12/23 12:34:56" read back as "2015/12/23 12:34:56" with no
fractional component. -/
theorem datetime_milliseconds :
    (∀ (tbl : List String) (fd : FieldDefn) (dt : DateTimeValue),
      materializeCell tbl .OFTDateTime
        ((writeCell tbl fd (.vDateTime dt)).2) = .vDateTime dt)
    ∧ (∀ (tbl : List String) (dt : DateTimeValue),
        materializeCell tbl .OFTDateTime (.dateTimeCell dt false) =
          .vDateTime { dt with millisecond := 0 })
    ∧ (∀ (s : String) (dt : DateTimeValue),
        parseDateTimeText s = some dt →
        s.data.all (fun c => c != '.') = true → dt.millisecond = 0)
    ∧ readBackFormatted "2015/12/23 12:34:56.789" =
        some "2015/12/23 12:34:56.789"
    ∧ readBackFormatted "2015/12/23 12:34:56.000" = some "2015/12/23 12:34:56"
    ∧ readBackFormatted "2015/12/23 12:34:56" = some "2015/12/23 12:34:56" := by
  refine ⟨?_, ?_, ?_, by decide, by decide, by decide⟩
  · intro tbl fd dt
    show materializeCell tbl .OFTDateTime
      (.dateTimeCell dt (dt.millisecond != 0)) = .vDateTime dt
    cases dt with
    | mk y mo d h mi s ms =>
      cases ms with
      | zero => simp [materializeCell]
      | succ k => simp [materializeCell]
  · intro tbl dt
    simp [materializeCell]
  · intro s dt h hnodot
    have hmem : ∀ c ∈ s.data, c ≠ '.' := by
      intro c hc
      have := List.all_eq_true.mp hnodot c hc
      simpa using this
    unfold parseDateTimeText at h
    split at h
    case _ d t heq1 =>
      split at h
      case _ ys mos das hs mis ss heq2 heq3 =>
        have ht : ∀ c ∈ t, c ≠ '.' := by
          intro c hc
          exact hmem c (splitOnChar_mem_subset ' ' s.data t
            (by rw [heq1]; simp) c hc)
        have hss : ∀ c ∈ ss, c ≠ '.' := by
          intro c hc
          exact ht c (splitOnChar_mem_subset ':' t ss
            (by rw [heq3]; simp) c hc)
        have hsingle : splitOnChar '.' ss = [ss] :=
          splitOnChar_of_no_sep '.' ss hss
        split at h
        case _ sec heq4 =>
          simp only [Option.pure_def, Option.bind_eq_bind,
            Option.bind_eq_some, Option.some.injEq] at h
          obtain ⟨y, _, mo, _, da, _, hh, _, mi, _, se, _, hdt⟩ := h
          rw [← hdt]
        case _ sec frac heq4 =>
          rw [hsingle] at heq4
          simp at heq4
        case _ => simp at h
      case _ => simp at h
    case _ => simp at h

/-- Witness for C5: the millisecond-carrying cell round-trips exactly,
and the fraction-free textual input parses with a zero millisecond
component. -/
theorem datetime_milliseconds_witness :
    materializeCell [] .OFTDateTime
        ((writeCell [] ⟨"Field1", .OFTDateTime, .OFSTNone⟩
          (.vDateTime ⟨2015, 12, 23, 12, 34, 56, 789⟩)).2) =
      .vDateTime ⟨2015, 12, 23, 12, 34, 56, 789⟩
    ∧ (⟨2015, 12, 23, 12, 34, 56, 0⟩ : DateTimeValue).millisecond = 0 :=
  ⟨datetime_milliseconds.1 [] ⟨"Field1", .OFTDateTime, .OFSTNone⟩
     ⟨2015, 12, 23, 12, 34, 56, 789⟩,
   datetime_milliseconds.2.2.1 "2015/12/23 12:34:56"
     ⟨2015, 12, 23, 12, 34, 56, 0⟩ (by decide) (by decide)⟩

/-! ## Lemmas about the write path: the shared-strings table only grows -/

theorem writeCell_extends (tbl : List String) (fd : FieldDefn) (v : Value) :
    ∃ ext, (writeCell tbl fd v).1 = tbl ++ ext := by
  cases v with
  | vString s => exact ⟨[s], rfl⟩
  | vInt i =>
    refine ⟨[], ?_⟩
    rw [List.append_nil]
    by_cases h : fd.subType = .OFSTBoolean <;> simp [writeCell, h]
  | vReal r => exact ⟨[], (List.append_nil tbl).symm⟩
  | vDate y m d => exact ⟨[], (List.append_nil tbl).symm⟩
  | vTime h mi s => exact ⟨[], (List.append_nil tbl).symm⟩
  | vDateTime dt => exact ⟨[], (List.append_nil tbl).symm⟩

theorem writeCells_extends :
    ∀ (fvs : List (FieldDefn × Option Value)) (tbl : List String) (j : Nat),
      ∃ ext, (writeCells tbl fvs j).1 = tbl ++ ext := by
  intro fvs
  induction fvs with
  | nil => intro tbl j; exact ⟨[], (List.append_nil tbl).symm⟩
  | cons p rest ih =>
    intro tbl j
    obtain ⟨fd, ov⟩ := p
    cases ov with
    | none => exact ih tbl (j + 1)
    | some v =>
      obtain ⟨e1, he1⟩ := writeCell_extends tbl fd v
      obtain ⟨e2, he2⟩ := ih ((writeCell tbl fd v).1) (j + 1)
      refine ⟨e1 ++ e2, ?_⟩
      show (writeCells ((writeCell tbl fd v).1) rest (j + 1)).1 =
        tbl ++ (e1 ++ e2)
      rw [he2, he1, List.append_assoc]

theorem writeHeaderCells_extends :
    ∀ (fields : List FieldDefn) (tbl : List String) (j : Nat),
      ∃ ext, (writeHeaderCells tbl fields j).1 = tbl ++ ext := by
  intro fields
  induction fields with
  | nil => intro tbl j; exact ⟨[], (List.append_nil tbl).symm⟩
  | cons fd rest ih =>
    intro tbl j
    obtain ⟨e2, he2⟩ := ih (tbl ++ [fd.name]) (j + 1)
    refine ⟨[fd.name] ++ e2, ?_⟩
    show (writeHeaderCells (tbl ++ [fd.name]) rest (j + 1)).1 = _
    rw [he2, List.append_assoc]

theorem writeFeatureRows_extends :
    ∀ (fl : List (List (Option Value))) (tbl : List String)
      (fields : List FieldDefn),
      ∃ ext, (writeFeatureRows tbl fields fl).1 = tbl ++ ext := by
  intro fl
  induction fl with
  | nil => intro tbl fields; exact ⟨[], (List.append_nil tbl).symm⟩
  | cons f fs ih =>
    intro tbl fields
    obtain ⟨e1, he1⟩ := writeCells_extends (fields.zip f) tbl 0
    obtain ⟨e2, he2⟩ := ih ((writeCells tbl (fields.zip f) 0).1) fields
    refine ⟨e1 ++ e2, ?_⟩
    show (writeFeatureRows ((writeCells tbl (fields.zip f) 0).1) fields fs).1 = _
    rw [he2, he1, List.append_assoc]

/-! ## Lemmas about the write/read round trip for one cell and one row -/

theorem cellAt_cons_self (j : Nat) (c : Cell) (row : RawRow) :
    cellAt ((j, c) :: row) j = some c := by
  rw [cellAt, List.find?_cons_of_pos _ (by simp)]
  rfl

theorem cellAt_cons_ne (j k : Nat) (c : Cell) (row : RawRow) (h : j ≠ k) :
    cellAt ((j, c) :: row) k = cellAt row k := by
  rw [cellAt, List.find?_cons_of_neg _ (by simp [h]), cellAt]

theorem materializeRowAux_skip (tbl : List String) :
    ∀ (ts : List FieldType) (k j : Nat) (c : Cell) (row : RawRow), j < k →
      materializeRowAux tbl ts k ((j, c) :: row) =
        materializeRowAux tbl ts k row := by
  intro ts
  induction ts with
  | nil => intro k j c row _; rfl
  | cons t ts ih =>
    intro k j c row hjk
    rw [materializeRowAux, materializeRowAux,
      cellAt_cons_ne j k c row (by omega), ih (k + 1) j c row (by omega)]

theorem writeCells_cellAt_lt :
    ∀ (fvs : List (FieldDefn × Option Value)) (tbl : List String)
      (j k : Nat), k < j → cellAt (writeCells tbl fvs j).2 k = none := by
  intro fvs
  induction fvs with
  | nil => intro tbl j k _; rfl
  | cons p rest ih =>
    intro tbl j k hk
    obtain ⟨fd, ov⟩ := p
    cases ov with
    | none =>
      show cellAt (writeCells tbl rest (j + 1)).2 k = none
      exact ih tbl (j + 1) k (by omega)
    | some v =>
      show cellAt ((j, (writeCell tbl fd v).2) ::
        (writeCells ((writeCell tbl fd v).1) rest (j + 1)).2) k = none
      rw [cellAt_cons_ne j k _ _ (by omega)]
      exact ih ((writeCell tbl fd v).1) (j + 1) k (by omega)

theorem writeCell_roundtrip (tbl ext : List String) (fd : FieldDefn) :
    ∀ v : Value, valueConforms fd v = true →
      materializeCell ((writeCell tbl fd v).1 ++ ext) fd.fieldType
        ((writeCell tbl fd v).2) = v := by
  intro v hconf
  cases v with
  | vString s =>
    show Value.vString (((tbl ++ [s]) ++ ext).getD tbl.length "") =
      Value.vString s
    rw [List.append_assoc,
      List.getD_append_right _ _ _ _ (le_refl tbl.length)]
    simp
  | vInt i =>
    rw [valueConforms] at hconf
    cases hft : fd.fieldType <;> rw [hft] at hconf
    case OFTInteger =>
      have hconf2 : (decide (int32Min ≤ i) && decide (i ≤ int32Max) &&
          (fd.subType == FieldSubType.OFSTNone || i == 0 || i == 1)) =
            true := hconf
      cases hsub : fd.subType with
      | OFSTBoolean =>
        rw [hsub] at hconf2
        simp only [Bool.and_eq_true, Bool.or_eq_true, decide_eq_true_eq,
          beq_iff_eq] at hconf2
        have hi : i = 0 ∨ i = 1 := by
          rcases hconf2.2 with (h | h) | h
          · exact absurd h (by decide)
          · exact Or.inl h
          · exact Or.inr h
        have hw : writeCell tbl fd (.vInt i) = (tbl, .boolCell (i != 0)) := by
          simp [writeCell, hsub]
        rw [hw]
        rcases hi with rfl | rfl <;> simp [materializeCell, hft]
      | OFSTNone =>
        have hw : writeCell tbl fd (.vInt i) = (tbl, .number (i : Rat)) := by
          simp [writeCell, hsub]
        rw [hw]
        simp [materializeCell]
    case OFTInteger64 =>
      have hsub : fd.subType = .OFSTNone := by
        have hconf2 : (fd.subType == FieldSubType.OFSTNone) = true := hconf
        simpa using hconf2
      have hw : writeCell tbl fd (.vInt i) = (tbl, .number (i : Rat)) := by
        simp [writeCell, hsub]
      rw [hw]
      simp [materializeCell]
    case OFTReal => exact Bool.noConfusion hconf
    case OFTDate => exact Bool.noConfusion hconf
    case OFTTime => exact Bool.noConfusion hconf
    case OFTDateTime => exact Bool.noConfusion hconf
    case OFTString => exact Bool.noConfusion hconf
  | vReal r =>
    rw [valueConforms, Bool.and_eq_true, beq_iff_eq, beq_iff_eq] at hconf
    show materializeCell (tbl ++ ext) fd.fieldType (.number r) = .vReal r
    rw [hconf.1]
    rfl
  | vDate y m d => rfl
  | vTime h mi s => rfl
  | vDateTime dt =>
    show materializeCell (tbl ++ ext) fd.fieldType
      (.dateTimeCell dt (dt.millisecond != 0)) = .vDateTime dt
    cases dt with
    | mk y mo d h mi s ms =>
      cases ms with
      | zero => simp [materializeCell]
      | succ k => simp [materializeCell]

theorem writeCells_roundtrip :
    ∀ (fvs : List (FieldDefn × Option Value)) (tbl ext : List String)
      (j : Nat),
      fvs.all (fun p => p.2.all (valueConforms p.1)) = true →
      materializeRowAux ((writeCells tbl fvs j).1 ++ ext)
          (fvs.map (fun p => p.1.fieldType)) j (writeCells tbl fvs j).2 =
        fvs.map (fun p => p.2) := by
  intro fvs
  induction fvs with
  | nil => intro tbl ext j _; rfl
  | cons p rest ih =>
    intro tbl ext j hall
    rw [List.all_cons, Bool.and_eq_true] at hall
    obtain ⟨fd, ov⟩ := p
    cases ov with
    | none =>
      show materializeRowAux ((writeCells tbl rest (j + 1)).1 ++ ext)
        (fd.fieldType :: rest.map (fun p => p.1.fieldType)) j
        (writeCells tbl rest (j + 1)).2 = none :: rest.map (fun p => p.2)
      rw [materializeRowAux,
        writeCells_cellAt_lt rest tbl (j + 1) j (by omega),
        ih tbl ext (j + 1) hall.2]
      rfl
    | some v =>
      show materializeRowAux
        ((writeCells ((writeCell tbl fd v).1) rest (j + 1)).1 ++ ext)
        (fd.fieldType :: rest.map (fun p => p.1.fieldType)) j
        ((j, (writeCell tbl fd v).2) ::
          (writeCells ((writeCell tbl fd v).1) rest (j + 1)).2) =
        some v :: rest.map (fun p => p.2)
      obtain ⟨δ, hδ⟩ := writeCells_extends rest ((writeCell tbl fd v).1) (j + 1)
      have hhead : materializeCell
          ((writeCells ((writeCell tbl fd v).1) rest (j + 1)).1 ++ ext)
          fd.fieldType ((writeCell tbl fd v).2) = v := by
        rw [hδ, List.append_assoc]
        exact writeCell_roundtrip tbl (δ ++ ext) fd v (by simpa using hall.1)
      rw [materializeRowAux, cellAt_cons_self,
        materializeRowAux_skip _ _ (j + 1) j _ _ (by omega),
        ih ((writeCell tbl fd v).1) ext (j + 1) hall.2]
      rw [Option.map_some', hhead]

theorem writeFeatureRows_roundtrip :
    ∀ (fl : List (List (Option Value))) (fields : List FieldDefn)
      (tbl ext : List String) (start : Nat),
      fl.all (featureConforms fields) = true →
      (materializeRows ((writeFeatureRows tbl fields fl).1 ++ ext)
          (fields.map (fun f => f.fieldType))
          (writeFeatureRows tbl fields fl).2 start).map (fun f => f.values) =
        fl := by
  intro fl
  induction fl with
  | nil => intro fields tbl ext start _; rfl
  | cons f fs ih =>
    intro fields tbl ext start hall
    rw [List.all_cons, Bool.and_eq_true] at hall
    have hfc := hall.1
    rw [featureConforms, Bool.and_eq_true] at hfc
    have hlen : f.length = fields.length := by
      simpa using hfc.1
    have htypes : (fields.zip f).map (fun p => p.1.fieldType) =
        fields.map (fun fd => fd.fieldType) := by
      have h1 : (fields.zip f).map Prod.fst = fields :=
        List.map_fst_zip fields f (le_of_eq hlen.symm)
      calc (fields.zip f).map (fun p => p.1.fieldType)
          = ((fields.zip f).map Prod.fst).map (fun fd => fd.fieldType) := by
            rw [List.map_map]; rfl
        _ = fields.map (fun fd => fd.fieldType) := by rw [h1]
    have hvals : (fields.zip f).map (fun p => p.2) = f := by
      have h2 : (fields.zip f).map Prod.snd = f :=
        List.map_snd_zip fields f (le_of_eq hlen)
      exact h2
    show (materializeRows
        ((writeFeatureRows ((writeCells tbl (fields.zip f) 0).1) fields fs).1
          ++ ext)
        (fields.map (fun fd => fd.fieldType))
        ((writeCells tbl (fields.zip f) 0).2 ::
          (writeFeatureRows ((writeCells tbl (fields.zip f) 0).1) fields
            fs).2) start).map (fun ft => ft.values) = f :: fs
    rw [materializeRows, List.map_cons]
    have hhead : materializeRow
        ((writeFeatureRows ((writeCells tbl (fields.zip f) 0).1) fields fs).1
          ++ ext)
        (fields.map (fun fd => fd.fieldType))
        ((writeCells tbl (fields.zip f) 0).2) = f := by
      obtain ⟨δ, hδ⟩ :=
        writeFeatureRows_extends fs ((writeCells tbl (fields.zip f) 0).1)
          fields
      rw [materializeRow, hδ, List.append_assoc, ← htypes]
      rw [writeCells_roundtrip (fields.zip f) tbl (δ ++ ext) 0 hfc.2]
      exact hvals
    rw [show (⟨start, materializeRow
        ((writeFeatureRows ((writeCells tbl (fields.zip f) 0).1) fields fs).1
          ++ ext)
        (fields.map (fun fd => fd.fieldType))
        ((writeCells tbl (fields.zip f) 0).2)⟩ : RFeature).values =
        materializeRow
        ((writeFeatureRows ((writeCells tbl (fields.zip f) 0).1) fields fs).1
          ++ ext)
        (fields.map (fun fd => fd.fieldType))
        ((writeCells tbl (fields.zip f) 0).2) from rfl, hhead,
      ih fields ((writeCells tbl (fields.zip f) 0).1) ext (start + 1) hall.2]

theorem readSheet_features_eq (tbl : List String) (mode : HeaderMode)
    (part : SheetPart) (h : headerDetected mode part.rows = true) :
    (readSheet tbl mode part).features =
      materializeRows tbl
        ((readSheet tbl mode part).fields.map (fun f => f.fieldType))
        part.rows.tail 2 := by
  simp [readSheet, h]

/-- C1 (amended): a layer written through the driver and re-opened reads
back with exactly the feature values that were written, provided the
written values conform to the declared schema and the schema itself
survives the round trip — that is, the header row is recognized on
re-open and the field names, types and subtypes read back equal the
declared ones (which fails, e.g., for an all-String layer, and for
declared types not recoverable from the written values); in particular
the Boolean-subtype layer of the tests satisfies these conditions and
round-trips intact. -/
theorem write_read_roundtrip (L : WLayer)
    (hwf : layerWellFormed L = true)
    (hdet : headerDetected .AUTO
      ((writeLayerDoc L).sheets.headD ⟨"", []⟩).rows = true)
    (hs : (readBackLayer L).fields = L.fields) :
    (readBackLayer L).features.map (fun f => f.values) = L.features := by
  have hdet2 : headerDetected .AUTO (flushLayer [] L).2.rows = true := hdet
  have hrb : readBackLayer L =
      readSheet (flushLayer [] L).1 .AUTO (flushLayer [] L).2 := rfl
  rw [hrb] at hs ⊢
  rw [readSheet_features_eq _ _ _ hdet2, hs]
  have hrows : (flushLayer [] L).2.rows =
      (writeHeaderCells [] L.fields 0).2 ::
        (writeFeatureRows (writeHeaderCells [] L.fields 0).1 L.fields
          L.features).2 := rfl
  have htbl : (flushLayer [] L).1 =
      (writeFeatureRows (writeHeaderCells [] L.fields 0).1 L.fields
        L.features).1 := rfl
  rw [hrows, List.tail_cons, htbl]
  have := writeFeatureRows_roundtrip L.features L.fields
    (writeHeaderCells [] L.fields 0).1 [] 2 hwf
  rwa [List.append_nil] at this

/-- C1 counterexample: the claim fails as stated — a written layer with
one String field "strfield" and one feature "bar" re-opens with the
positional field name "Field1" (the all-string header row is not
recognized) and 2 features instead of the 1 written. -/
theorem write_read_roundtrip_counterexample :
    (readBackLayer demoStringLayer).fields.map (fun f => f.name) = ["Field1"]
    ∧ demoStringLayer.fields.map (fun f => f.name) = ["strfield"]
    ∧ (["Field1"] : List String) ≠ ["strfield"]
    ∧ (readBackLayer demoStringLayer).features.length = 2
    ∧ demoStringLayer.features.length = 1 :=
  ⟨by decide, by decide, by decide, by decide, by decide⟩

/-- Witness for C1 (amended) on the Boolean-subtype layer: well-formed,
schema reads back equal (type Integer, subtype Boolean), and the feature
value 1 reads back intact. -/
theorem write_read_roundtrip_witness :
    layerWellFormed demoBoolLayer = true
    ∧ (readBackLayer demoBoolLayer).fields =
        [⟨"Field1", .OFTInteger, .OFSTBoolean⟩]
    ∧ (readBackLayer demoBoolLayer).features.map (fun f => f.values) =
        [[some (.vInt 1)]] :=
  ⟨by decide, by decide,
   write_read_roundtrip demoBoolLayer (by decide) (by decide) (by decide)⟩

/-! ## Lemmas: reading is stable under extending the shared strings -/

theorem materializeCell_extend (tbl ext : List String) (ft : FieldType)
    (c : Cell) (hok : cellIndexOk tbl.length c = true) :
    materializeCell (tbl ++ ext) ft c = materializeCell tbl ft c := by
  cases c with
  | sharedStr i =>
    have hi : i < tbl.length := by simpa [cellIndexOk] using hok
    show Value.vString ((tbl ++ ext).getD i "") = Value.vString (tbl.getD i "")
    rw [List.getD_append _ _ _ i hi]
  | inlineStr s => rfl
  | boolCell b => rfl
  | number v => rfl
  | dateCell y m d => rfl
  | timeCell h mi s => rfl
  | dateTimeCell dt w => rfl

theorem cellAt_mem (row : RawRow) (j : Nat) (c : Cell)
    (h : cellAt row j = some c) : ∃ k, (k, c) ∈ row := by
  rw [cellAt] at h
  rcases Option.map_eq_some'.mp h with ⟨⟨k, c2⟩, hp, hpc⟩
  change c2 = c at hpc
  subst hpc
  exact ⟨k, List.mem_of_find?_eq_some hp⟩

theorem materializeRowAux_extend (tbl ext : List String) :
    ∀ (ts : List FieldType) (k : Nat) (row : RawRow),
      row.all (fun p => cellIndexOk tbl.length p.2) = true →
      materializeRowAux (tbl ++ ext) ts k row =
        materializeRowAux tbl ts k row := by
  intro ts
  induction ts with
  | nil => intro k row _; rfl
  | cons t ts ih =>
    intro k row hok
    rw [materializeRowAux, materializeRowAux, ih (k + 1) row hok]
    congr 1
    cases hc : cellAt row k with
    | none => rfl
    | some c =>
      rw [Option.map_some', Option.map_some']
      obtain ⟨kk, hmem⟩ := cellAt_mem row k c hc
      have hcok : cellIndexOk tbl.length c = true := by
        simpa using List.all_eq_true.mp hok (kk, c) hmem
      rw [materializeCell_extend tbl ext t c hcok]

theorem materializeRows_extend (tbl ext : List String)
    (types : List FieldType) :
    ∀ (rows : List RawRow) (k : Nat),
      rows.all (fun r => r.all (fun p => cellIndexOk tbl.length p.2)) =
        true →
      materializeRows (tbl ++ ext) types rows k =
        materializeRows tbl types rows k := by
  intro rows
  induction rows with
  | nil => intro k _; rfl
  | cons r rs ih =>
    intro k hok
    rw [List.all_cons, Bool.and_eq_true] at hok
    rw [materializeRows, materializeRows, ih (k + 1) hok.2]
    have hrow : materializeRow (tbl ++ ext) types r =
        materializeRow tbl types r :=
      materializeRowAux_extend tbl ext types 0 r hok.1
    rw [hrow]

theorem headerName_extend (tbl ext : List String) (hdr : RawRow)
    (hok : hdr.all (fun p => cellIndexOk tbl.length p.2) = true) (j : Nat) :
    headerName (tbl ++ ext) hdr j = headerName tbl hdr j := by
  cases hc : cellAt hdr j with
  | none => simp only [headerName, hc]
  | some c =>
    cases c with
    | sharedStr i =>
      obtain ⟨kk, hmem⟩ := cellAt_mem hdr j _ hc
      have hi : i < tbl.length := by
        simpa [cellIndexOk] using List.all_eq_true.mp hok (kk, .sharedStr i)
          hmem
      simp only [headerName, hc]
      rw [List.getD_append _ _ _ i hi]
    | inlineStr s => simp only [headerName, hc]
    | boolCell b => simp only [headerName, hc]
    | number v => simp only [headerName, hc]
    | dateCell y m d => simp only [headerName, hc]
    | timeCell h mi s => simp only [headerName, hc]
    | dateTimeCell dt w => simp only [headerName, hc]

theorem readSheet_fields_extend (tbl ext : List String) (mode : HeaderMode)
    (part : SheetPart) (hok : sheetIndexOk tbl.length part = true) :
    (readSheet (tbl ++ ext) mode part).fields =
      (readSheet tbl mode part).fields := by
  have hrows : ∀ r ∈ part.rows,
      r.all (fun p => cellIndexOk tbl.length p.2) = true :=
    fun r hr => List.all_eq_true.mp hok r hr
  simp only [readSheet]
  apply List.map_congr_left
  intro j _
  cases hdet : headerDetected mode part.rows with
  | false => simp [hdet]
  | true =>
    have hhdr : (part.rows.headD []).all
        (fun p => cellIndexOk tbl.length p.2) = true := by
      cases hr : part.rows with
      | nil => rfl
      | cons r rs => exact hrows r (by rw [hr]; exact List.mem_cons_self r rs)
    simp only [hdet, if_true]
    rw [headerName_extend tbl ext _ hhdr j]

theorem readSheet_features_extend (tbl ext : List String) (mode : HeaderMode)
    (part : SheetPart) (hok : sheetIndexOk tbl.length part = true) :
    (readSheet (tbl ++ ext) mode part).features =
      (readSheet tbl mode part).features := by
  have hf := readSheet_fields_extend tbl ext mode part hok
  have h1 : (readSheet (tbl ++ ext) mode part).features =
      materializeRows (tbl ++ ext)
        ((readSheet (tbl ++ ext) mode part).fields.map (fun f => f.fieldType))
        (if headerDetected mode part.rows then part.rows.tail else part.rows)
        (if headerDetected mode part.rows then 2 else 1) := rfl
  have h2 : (readSheet tbl mode part).features =
      materializeRows tbl
        ((readSheet tbl mode part).fields.map (fun f => f.fieldType))
        (if headerDetected mode part.rows then part.rows.tail else part.rows)
        (if headerDetected mode part.rows then 2 else 1) := rfl
  rw [h1, h2, hf]
  apply materializeRows_extend
  rw [List.all_eq_true]
  intro r hr
  apply List.all_eq_true.mp hok
  split at hr
  · exact List.mem_of_mem_tail hr
  · exact hr

theorem readSheet_extend (tbl ext : List String) (mode : HeaderMode)
    (part : SheetPart) (hok : sheetIndexOk tbl.length part = true) :
    readSheet (tbl ++ ext) mode part = readSheet tbl mode part := by
  calc readSheet (tbl ++ ext) mode part
      = ⟨part.name, (readSheet tbl mode part).fields,
          (readSheet tbl mode part).features, .wkbNone, none⟩ := by
        rw [← readSheet_fields_extend tbl ext mode part hok,
          ← readSheet_features_extend tbl ext mode part hok]
        rfl
    _ = readSheet tbl mode part := rfl

theorem flushLayer_extends (tbl : List String) (L : WLayer) :
    ∃ ext, (flushLayer tbl L).1 = tbl ++ ext := by
  obtain ⟨e1, he1⟩ := writeHeaderCells_extends L.fields tbl 0
  obtain ⟨e2, he2⟩ := writeFeatureRows_extends L.features
    ((writeHeaderCells tbl L.fields 0).1) L.fields
  refine ⟨e1 ++ e2, ?_⟩
  show (writeFeatureRows ((writeHeaderCells tbl L.fields 0).1) L.fields
    L.features).1 = tbl ++ (e1 ++ e2)
  rw [he2, he1, List.append_assoc]

theorem writeFeatureRows_length (fields : List FieldDefn) :
    ∀ (fl : List (List (Option Value))) (tbl : List String),
      (writeFeatureRows tbl fields fl).2.length = fl.length := by
  intro fl
  induction fl with
  | nil => intro tbl; rfl
  | cons f fs ih =>
    intro tbl
    show ((writeCells tbl (fields.zip f) 0).2 ::
      (writeFeatureRows ((writeCells tbl (fields.zip f) 0).1) fields
        fs).2).length = fs.length + 1
    rw [List.length_cons, ih]

theorem writeHeaderCells_all_string :
    ∀ (fields : List FieldDefn) (tbl : List String) (j : Nat),
      (writeHeaderCells tbl fields j).2.all (fun p => isStringCell p.2) =
        true := by
  intro fields
  induction fields with
  | nil => intro tbl j; rfl
  | cons fd rest ih =>
    intro tbl j
    show ((j, Cell.sharedStr tbl.length) ::
      (writeHeaderCells (tbl ++ [fd.name]) rest (j + 1)).2).all
        (fun p => isStringCell p.2) = true
    rw [List.all_cons, Bool.and_eq_true]
    exact ⟨rfl, ih (tbl ++ [fd.name]) (j + 1)⟩

/-- C8: appending a new layer to an existing well-formed document leaves
every previously written sheet intact — the document gains exactly one
sheet, every old sheet reads back unchanged (the shared-strings table
only grows, so old references keep their meaning), the new sheet sits at
the end and holds one feature per newly appended feature, and a sheet
written with zero rows (but at least one field) still reads back as a
valid layer with feature count 0. -/
theorem append_sheet_frame (doc : Document) (L : WLayer) (mode : HeaderMode)
    (hwf : docWellFormed doc = true) :
    (appendLayer doc L).sheets.length = doc.sheets.length + 1
    ∧ (∀ i, i < doc.sheets.length →
        (readDocument mode (appendLayer doc L))[i]? =
          (readDocument mode doc)[i]?)
    ∧ (readDocument mode (appendLayer doc L))[doc.sheets.length]? =
        some (readSheet (appendLayer doc L).sharedStrings mode
          (flushLayer doc.sharedStrings L).2)
    ∧ (headerDetected .AUTO (flushLayer doc.sharedStrings L).2.rows = true →
        (readSheet (appendLayer doc L).sharedStrings .AUTO
          (flushLayer doc.sharedStrings L).2).features.length =
          L.features.length)
    ∧ (L.features = [] → L.fields ≠ [] →
        (readSheet (appendLayer doc L).sharedStrings .AUTO
          (flushLayer doc.sharedStrings L).2).features.length = 0) := by
  have hws : ∀ s ∈ doc.sheets,
      sheetIndexOk doc.sharedStrings.length s = true :=
    fun s hs => List.all_eq_true.mp hwf s hs
  obtain ⟨δ, hδ⟩ := flushLayer_extends doc.sharedStrings L
  refine ⟨?_, ?_, ?_, ?_, ?_⟩
  · show (doc.sheets ++ [(flushLayer doc.sharedStrings L).2]).length = _
    rw [List.length_append]
    rfl
  · intro i hi
    show ((doc.sheets ++ [(flushLayer doc.sharedStrings L).2]).map
      (readSheet (flushLayer doc.sharedStrings L).1 mode))[i]? =
      (doc.sheets.map (readSheet doc.sharedStrings mode))[i]?
    rw [List.getElem?_map, List.getElem?_map, List.getElem?_append_left hi,
      List.getElem?_eq_getElem hi, Option.map_some', Option.map_some']
    have hsok : sheetIndexOk doc.sharedStrings.length doc.sheets[i] = true :=
      hws _ (List.getElem_mem hi)
    rw [hδ, readSheet_extend doc.sharedStrings δ mode _ hsok]
  · show ((doc.sheets ++ [(flushLayer doc.sharedStrings L).2]).map
      (readSheet (flushLayer doc.sharedStrings L).1 mode))[doc.sheets.length]?
      = _
    rw [List.getElem?_map,
      List.getElem?_append_right (le_refl doc.sheets.length), Nat.sub_self]
    rfl
  · intro hdet
    rw [readSheet_features_eq _ _ _ hdet, materializeRows_length]
    have h0 : (flushLayer doc.sharedStrings L).2.rows =
        (writeHeaderCells doc.sharedStrings L.fields 0).2 ::
          (writeFeatureRows (writeHeaderCells doc.sharedStrings L.fields 0).1
            L.fields L.features).2 := rfl
    rw [h0, List.tail_cons, writeFeatureRows_length]
  · intro hfe hfne
    have h0 : (flushLayer doc.sharedStrings L).2.rows =
        (writeHeaderCells doc.sharedStrings L.fields 0).2 ::
          (writeFeatureRows (writeHeaderCells doc.sharedStrings L.fields 0).1
            L.fields L.features).2 := rfl
    have hrows : (flushLayer doc.sharedStrings L).2.rows =
        [(writeHeaderCells doc.sharedStrings L.fields 0).2] := by
      rw [h0, hfe]
      rfl
    have hne : (writeHeaderCells doc.sharedStrings L.fields 0).2.isEmpty =
        false := by
      cases hflds : L.fields with
      | nil => exact absurd hflds hfne
      | cons fd fds => rfl
    have hdet : headerDetected .AUTO
        (flushLayer doc.sharedStrings L).2.rows = true := by
      rw [hrows]
      simp [headerDetected, hne, writeHeaderCells_all_string]
    rw [readSheet_features_eq _ _ _ hdet, materializeRows_length, hrows]
    rfl

/-- Witness for C8: appending the Integer layer "L3" to the two-sheet
demo document yields three sheets, the first two read back unchanged,
and the new sheet reads back with exactly its one feature; appending a
zero-feature layer instead reads back with feature count 0. -/
theorem append_sheet_frame_witness :
    (appendLayer demoDoc2 demoLayerC).sheets.length = 3
    ∧ (readDocument .AUTO (appendLayer demoDoc2 demoLayerC))[0]? =
        (readDocument .AUTO demoDoc2)[0]?
    ∧ (readDocument .AUTO (appendLayer demoDoc2 demoLayerC))[1]? =
        (readDocument .AUTO demoDoc2)[1]?
    ∧ (readSheet (appendLayer demoDoc2 demoLayerC).sharedStrings .AUTO
        (flushLayer demoDoc2.sharedStrings demoLayerC).2).features.length = 1
    ∧ (readSheet (appendLayer demoDoc2 demoEmptyLayer).sharedStrings .AUTO
        (flushLayer demoDoc2.sharedStrings demoEmptyLayer).2).features.length
        = 0 :=
  ⟨by rw [(append_sheet_frame demoDoc2 demoLayerC .AUTO (by decide)).1]; decide,
   (append_sheet_frame demoDoc2 demoLayerC .AUTO (by decide)).2.1 0 (by decide),
   (append_sheet_frame demoDoc2 demoLayerC .AUTO (by decide)).2.1 1 (by decide),
   by rw [(append_sheet_frame demoDoc2 demoLayerC .AUTO
      (by decide)).2.2.2.1 (by decide)]; decide,
   (append_sheet_frame demoDoc2 demoEmptyLayer .AUTO (by decide)).2.2.2.2 rfl
     (by decide)⟩

end XLSX
